import Mathlib

/-!
# Verification of the funding_app_api market-data transformations

A shallow embedding of the pure data transformations of
`funding_bot_api.py` and `funding-bot.py`:

* `get_all_market_details` — flattens two positionally parallel lists
  (asset descriptors from the metadata universe, asset state snapshots)
  into one normalized record per market, with a length-mismatch guard;
* `get_top_funding_opportunities` — filters records to strictly positive
  hourly funding percentage, stable-sorts descending, truncates to `top_n`;
* `find_top_positive_funding_rates` — the script variant of the ranker
  working on a name-to-rate association list;
* the sparkline down-sampling step of `get_coingecko_market_overview`.

Python floats are modelled as rationals (`ℚ`); Python `sorted` (a stable
sort) is modelled as `List.insertionSort`, which is stable; a value that is
not a dict, and an optional field that is absent or fails `float()`, are
modelled explicitly in the input types.
-/

namespace FundingApp

/-- A raw optional-field value from an asset-state mapping: either a value
that `float()` parses to the rational `q`, or a malformed value on which
`float()` raises `ValueError`. -/
inductive RawVal where
  | num (q : ℚ)
  | malformed
deriving DecidableEq

/-- Python `float(x)` applied to an optionally present raw field: `none`
when the field is absent or unparsable, `some q` when it parses. -/
def parseFloat : Option RawVal → Option ℚ
  | some (RawVal.num q) => some q
  | _ => none

/-- An entry of `meta["universe"]`: either not a dict at all, or a dict
with an optional `name` value (`none` models an absent key). -/
inductive AssetDescriptor where
  | notDict
  | dict (name : Option String)
deriving DecidableEq

/-- The name extracted from a universe entry by
`isinstance(asset_detail, dict) and asset_detail.get("name")`
(`funding_bot_api.py` line 114): `none` for a non-dict entry, an absent
name, or an empty (falsy) name string. -/
def descName : AssetDescriptor → Option String
  | AssetDescriptor.notDict => none
  | AssetDescriptor.dict none => none
  | AssetDescriptor.dict (some s) => if s = "" then none else some s

/-- The `current_market_names` list built from `meta["universe"]`
(`funding_bot_api.py` lines 112-116): names of the dict entries whose
`name` value is truthy, in input order. -/
def extract_market_names (univ : List AssetDescriptor) : List String :=
  univ.filterMap descName

/-- An entry of the asset-state list: either not a dict, or a dict with
optional `funding`, `dayNtlVlm` and `openInterest` values. -/
inductive AssetState where
  | notDict
  | dict (funding dayNtlVlm openInterest : Option RawVal)
deriving DecidableEq

/-- The normalized per-market record built by `get_all_market_details`
(`funding_bot_api.py` lines 140-149). -/
structure MarketRecord where
  exchange : String
  market : String
  hourly_percentage : ℚ
  apr : ℚ
  volume_24h : ℚ
  open_interest : ℚ
  next_funding_time : Option ℚ
  funding_interval_hours : ℕ
deriving DecidableEq

/-- The record built for one market from its name and the three raw state
fields (`funding_bot_api.py` lines 140-169): defaults are kept for any
field that is absent or fails to parse. -/
def mkMarketDataEntry (market_name : String)
    (funding dayNtlVlm openInterest : Option RawVal) : MarketRecord :=
  { exchange := "Hyperliquid"
    market := market_name ++ "-PERP"
    hourly_percentage :=
      match parseFloat funding with
      | some q => q * 100
      | none => 0
    apr :=
      match parseFloat funding with
      | some q => q * 24 * 365 * 100
      | none => 0
    volume_24h :=
      match parseFloat dayNtlVlm with
      | some q => q
      | none => 0
    open_interest :=
      match parseFloat openInterest with
      | some q => q
      | none => 0
    next_funding_time := none
    funding_interval_hours := 1 }

/-- The main loop of `get_all_market_details` (`funding_bot_api.py`
lines 127-171): walk the two lists in lockstep, skip any index whose state
entry is not a dict, and build one record per remaining index. -/
def assembleRecords : List String → List AssetState → List MarketRecord
  | n :: ns, AssetState.dict f v o :: ss =>
      mkMarketDataEntry n f v o :: assembleRecords ns ss
  | _ :: ns, AssetState.notDict :: ss => assembleRecords ns ss
  | _, _ => []

/-- The function `get_all_market_details` (`funding_bot_api.py` lines 94-176), the pure
part after the fetch: extract the names from the universe, abort with an
empty result when the name count differs from the state count, and
otherwise assemble one record per index. -/
def get_all_market_details (univ : List AssetDescriptor)
    (asset_contexts_with_state : List AssetState) : List MarketRecord :=
  let current_market_names := extract_market_names univ
  if current_market_names.length = asset_contexts_with_state.length then
    assembleRecords current_market_names asset_contexts_with_state
  else []

/-- Whether `get_all_market_details` logs the critical length-mismatch
error (`funding_bot_api.py` lines 118-123). -/
def mismatch_error_logged (univ : List AssetDescriptor)
    (asset_contexts_with_state : List AssetState) : Bool :=
  decide ((extract_market_names univ).length ≠ asset_contexts_with_state.length)

/-- C1: when the number of named descriptors extracted from the universe
differs from the length of the asset-state list, `get_all_market_details`
returns no records at all and signals the data-integrity error. -/
theorem C1_length_mismatch_aborts (univ : List AssetDescriptor)
    (states : List AssetState)
    (h : (extract_market_names univ).length ≠ states.length) :
    get_all_market_details univ states = [] ∧
      mismatch_error_logged univ states = true := by
  refine ⟨?_, ?_⟩
  · unfold get_all_market_details
    simp only [if_neg h]
  · unfold mismatch_error_logged
    exact decide_eq_true h

/-- Witness for C1 at a concrete mismatched input: one named descriptor,
zero states. -/
theorem C1_length_mismatch_aborts_witness :
    (extract_market_names [AssetDescriptor.dict (some "BTC")]).length ≠
        ([] : List AssetState).length ∧
      get_all_market_details [AssetDescriptor.dict (some "BTC")] [] = [] ∧
      mismatch_error_logged [AssetDescriptor.dict (some "BTC")] [] = true :=
  ⟨by decide, C1_length_mismatch_aborts [AssetDescriptor.dict (some "BTC")] [] (by decide)⟩

/-- The descending comparison used by the ranker's
`sorted(..., key=lambda x: x["hourly_percentage"], reverse=True)`
(`funding_bot_api.py` lines 187-189): `a` may come before `b` exactly when
`b`'s hourly percentage is not larger. -/
def hpGe (a b : MarketRecord) : Prop :=
  b.hourly_percentage ≤ a.hourly_percentage

instance : DecidableRel hpGe := fun a b =>
  inferInstanceAs (Decidable (b.hourly_percentage ≤ a.hourly_percentage))

instance : IsTotal MarketRecord hpGe :=
  ⟨fun a b => le_total b.hourly_percentage a.hourly_percentage⟩

instance : IsTrans MarketRecord hpGe :=
  ⟨fun _ _ _ hab hbc => le_trans hbc hab⟩

/-- The ranker `get_top_funding_opportunities` (`funding_bot_api.py` lines 179-190):
keep the records with strictly positive hourly percentage, stable-sort
them descending by hourly percentage (Python `sorted` is stable, modelled
by `List.insertionSort`), and return the first `top_n`. -/
def get_top_funding_opportunities (all_market_data_list : List MarketRecord)
    (top_n : ℕ) : List MarketRecord :=
  if all_market_data_list = [] then []
  else
    let positive_funding_markets :=
      all_market_data_list.filter (fun m => 0 < m.hourly_percentage)
    if positive_funding_markets = [] then []
    else (List.insertionSort hpGe positive_funding_markets).take top_n

/-- A result entry of `find_top_positive_funding_rates`
(`funding-bot.py` lines 200-207). -/
structure BotEntry where
  market : String
  hourly_rate : ℚ
  hourly_percentage : ℚ
  apr : ℚ
deriving DecidableEq

/-- The descending comparison used by `find_top_positive_funding_rates`
on its intermediate `(market, hourly_rate)` pairs
(`funding-bot.py` lines 179-181). -/
def rateGe (a b : String × ℚ) : Prop :=
  b.2 ≤ a.2

instance : DecidableRel rateGe := fun a b =>
  inferInstanceAs (Decidable (b.2 ≤ a.2))

instance : IsTotal (String × ℚ) rateGe :=
  ⟨fun a b => le_total b.2 a.2⟩

instance : IsTrans (String × ℚ) rateGe :=
  ⟨fun _ _ _ hab hbc => le_trans hbc hab⟩

/-- The result entry built from one `(market, hourly_rate)` pair
(`funding-bot.py` lines 188-207). -/
def mkBotEntry (p : String × ℚ) : BotEntry :=
  { market := p.1
    hourly_rate := p.2
    hourly_percentage := p.2 * 100
    apr := p.2 * 24 * 365 * 100 }

/-- The script ranker `find_top_positive_funding_rates` (`funding-bot.py` lines 160-213):
the funding map (a Python dict, iterated in insertion order, modelled as
an association list) is filtered to strictly positive rates, stable-sorted
descending by rate, truncated to `top_n`, and each survivor is expanded
into a result entry with percentage and APR fields. -/
def find_top_positive_funding_rates (funding_data : List (String × ℚ))
    (top_n : ℕ) : List BotEntry :=
  let positive_funding_markets := funding_data.filter (fun p => 0 < p.2)
  if positive_funding_markets = [] then []
  else
    ((List.insertionSort rateGe positive_funding_markets).take top_n).map mkBotEntry

/-- Helper for Python slicing with step 7: `sliceStep c l` keeps an element
exactly when the countdown `c` reaches zero, then restarts the countdown
at 6, so the kept elements are 7 apart. -/
def sliceStep (c : ℕ) : List α → List α
  | [] => []
  | x :: xs =>
      match c with
      | 0 => x :: sliceStep 6 xs
      | c + 1 => sliceStep c xs

/-- Python `raw_sparkline[::7]`: every 7th element, starting at index 0. -/
def everySeventh (l : List α) : List α :=
  sliceStep 0 l

/-- The sparkline down-sampling expression of `get_coingecko_market_overview`
(`funding_bot_api.py` line 224):
`raw_sparkline[::7] if raw_sparkline and len(raw_sparkline) > 14 else raw_sparkline`. -/
def sample_sparkline (raw_sparkline : List α) : List α :=
  if raw_sparkline.isEmpty = false ∧ 14 < raw_sparkline.length then
    everySeventh raw_sparkline
  else raw_sparkline

/-- Helper: on equal-length inputs whose states are all dicts, the assembly
loop yields exactly the decorated market names, in input order. -/
theorem assembleRecords_map_market : ∀ (ns : List String) (ss : List AssetState),
    ns.length = ss.length → (∀ s ∈ ss, s ≠ AssetState.notDict) →
    (assembleRecords ns ss).map MarketRecord.market = ns.map (fun n => n ++ "-PERP")
  | [], [], _, _ => rfl
  | [], _ :: _, h, _ => by simp at h
  | _ :: _, [], h, _ => by simp at h
  | _ :: _, AssetState.notDict :: _, _, hd =>
      absurd rfl (hd AssetState.notDict (List.mem_cons_self _ _))
  | n :: ns, AssetState.dict f v o :: ss, h, hd => by
      simp only [assembleRecords, List.map]
      refine congrArg (fun t => (n ++ "-PERP") :: t) ?_
      exact assembleRecords_map_market ns ss (by simpa using h)
        (fun s hs => hd s (List.mem_cons_of_mem _ hs))

/-- C2 counterexample: two descriptors and two states (equal raw lengths,
every state a dict), one descriptor named; the assembler returns zero
records instead of one record for the named descriptor, because the name
count (1) differs from the state count (2). -/
theorem C2_counterexample :
    ([AssetDescriptor.dict none, AssetDescriptor.dict (some "BTC")] : List AssetDescriptor).length
        = ([AssetState.dict none none none, AssetState.dict none none none] :
            List AssetState).length ∧
      extract_market_names [AssetDescriptor.dict none, AssetDescriptor.dict (some "BTC")]
        = ["BTC"] ∧
      get_all_market_details [AssetDescriptor.dict none, AssetDescriptor.dict (some "BTC")]
        [AssetState.dict none none none, AssetState.dict none none none] = [] :=
  ⟨rfl, by decide, by decide⟩

/-- C2 (amended): when the number of named descriptors equals the number of
states and every state entry is a dict, the assembler returns exactly one
record per named descriptor, in input order, each with market identifier
equal to the descriptor name with the `-PERP` suffix, and no integrity
error is signalled; unnamed and non-dict descriptors contribute no record. -/
theorem C2_one_record_per_named_descriptor (univ : List AssetDescriptor)
    (states : List AssetState)
    (hlen : (extract_market_names univ).length = states.length)
    (hdict : ∀ s ∈ states, s ≠ AssetState.notDict) :
    (get_all_market_details univ states).map MarketRecord.market
      = (extract_market_names univ).map (fun n => n ++ "-PERP") ∧
      mismatch_error_logged univ states = false := by
  refine ⟨?_, ?_⟩
  · unfold get_all_market_details
    simp only []
    rw [if_pos hlen]
    exact assembleRecords_map_market _ _ hlen hdict
  · unfold mismatch_error_logged
    simp [hlen]

/-- Witness for C2 (amended) at a concrete input: two named descriptors
(one unnamed, one non-dict in between), two dict states. -/
theorem C2_one_record_per_named_descriptor_witness :
    ((extract_market_names [AssetDescriptor.dict (some "BTC"), AssetDescriptor.dict none,
          AssetDescriptor.notDict, AssetDescriptor.dict (some "ETH")]).length
        = ([AssetState.dict none none none,
            AssetState.dict (some RawVal.malformed) none none] : List AssetState).length ∧
      (∀ s ∈ ([AssetState.dict none none none,
          AssetState.dict (some RawVal.malformed) none none] : List AssetState),
        s ≠ AssetState.notDict)) ∧
      ((get_all_market_details [AssetDescriptor.dict (some "BTC"), AssetDescriptor.dict none,
            AssetDescriptor.notDict, AssetDescriptor.dict (some "ETH")]
            [AssetState.dict none none none,
              AssetState.dict (some RawVal.malformed) none none]).map MarketRecord.market
          = (extract_market_names [AssetDescriptor.dict (some "BTC"), AssetDescriptor.dict none,
              AssetDescriptor.notDict, AssetDescriptor.dict (some "ETH")]).map
              (fun n => n ++ "-PERP") ∧
        mismatch_error_logged [AssetDescriptor.dict (some "BTC"), AssetDescriptor.dict none,
            AssetDescriptor.notDict, AssetDescriptor.dict (some "ETH")]
            [AssetState.dict none none none,
              AssetState.dict (some RawVal.malformed) none none] = false) :=
  ⟨⟨by decide, by decide⟩,
    C2_one_record_per_named_descriptor _ _ (by decide) (by decide)⟩

/-- C3: the ranker returns only records with strictly positive hourly
percentage, at most `top_n` of them, and nothing at all when no record is
positive. -/
theorem C3_positive_filter_and_truncation (l : List MarketRecord) (top_n : ℕ) :
    (∀ r ∈ get_top_funding_opportunities l top_n, 0 < r.hourly_percentage) ∧
      (get_top_funding_opportunities l top_n).length ≤ top_n ∧
      ((∀ r ∈ l, r.hourly_percentage ≤ 0) → get_top_funding_opportunities l top_n = []) := by
  unfold get_top_funding_opportunities
  by_cases h0 : l = []
  · simp [h0]
  · simp only [if_neg h0]
    by_cases hp : l.filter (fun m => decide (0 < m.hourly_percentage)) = []
    · simp [hp]
    · simp only [if_neg hp]
      refine ⟨?_, ?_, ?_⟩
      · intro r hr
        have hr2 : r ∈ List.insertionSort hpGe
            (l.filter (fun m => decide (0 < m.hourly_percentage))) :=
          List.mem_of_mem_take hr
        have hr3 := (List.mem_insertionSort hpGe).1 hr2
        simpa using (List.mem_filter.1 hr3).2
      · exact List.length_take_le _ _
      · intro hall
        refine absurd (List.filter_eq_nil_iff.2 (fun r hr => ?_)) hp
        simpa using not_lt.2 (hall r hr)

/-- Witness for C3 at a concrete input: one record with negative hourly
percentage, so the ranker returns the empty list. -/
theorem C3_positive_filter_and_truncation_witness :
    get_top_funding_opportunities
        [{ exchange := "Hyperliquid", market := "X-PERP", hourly_percentage := -1, apr := 0,
           volume_24h := 0, open_interest := 0, next_funding_time := none,
           funding_interval_hours := 1 }] 5 = [] :=
  (C3_positive_filter_and_truncation _ 5).2.2 (by decide)

/-- C4: a record assembled from a raw hourly funding rate `r` that parses
has `apr = r * 100 * 24 * 365` and `hourly_percentage = r * 100`, so the
apr is exactly the hourly percentage scaled by `24 * 365`; the script
variant builds its entries with the same two relations. -/
theorem C4_apr_scaling (market_name : String) (r : ℚ) (v o : Option RawVal) (p : String) :
    (mkMarketDataEntry market_name (some (RawVal.num r)) v o).apr = r * 100 * 24 * 365 ∧
      (mkMarketDataEntry market_name (some (RawVal.num r)) v o).hourly_percentage = r * 100 ∧
      (mkMarketDataEntry market_name (some (RawVal.num r)) v o).apr
        = (mkMarketDataEntry market_name (some (RawVal.num r)) v o).hourly_percentage
            * (24 * 365) ∧
      (mkBotEntry (p, r)).apr = r * 100 * 24 * 365 ∧
      (mkBotEntry (p, r)).hourly_percentage = r * 100 := by
  refine ⟨?_, rfl, ?_, ?_, rfl⟩ <;>
    · simp only [mkMarketDataEntry, mkBotEntry, parseFloat]
      ring

/-- Helper: inserting a record into a list does not disturb, for any fixed
hourly percentage `q`, the subsequence of records whose hourly percentage
is `q` — the record passes only over strictly larger keys. -/
theorem filter_orderedInsert_hp (q : ℚ) (a : MarketRecord) (l : List MarketRecord) :
    (List.orderedInsert hpGe a l).filter (fun r => decide (r.hourly_percentage = q))
      = (a :: l).filter (fun r => decide (r.hourly_percentage = q)) := by
  induction l with
  | nil => rfl
  | cons b t ih =>
      by_cases hab : hpGe a b
      · simp only [List.orderedInsert, if_pos hab]
      · simp only [List.orderedInsert, if_neg hab]
        by_cases ha : a.hourly_percentage = q
        · have hb : ¬ b.hourly_percentage = q := fun hb =>
            hab (le_of_eq (hb.trans ha.symm))
          simp only [List.filter_cons, ih, decide_eq_true_eq]
          simp [ha, hb]
        · by_cases hb : b.hourly_percentage = q
          · simp only [List.filter_cons, ih, decide_eq_true_eq]
            simp [ha, hb]
          · simp only [List.filter_cons, ih, decide_eq_true_eq]
            simp [ha, hb]

/-- Helper: the stable descending sort preserves, for any fixed hourly
percentage `q`, the subsequence of records whose hourly percentage is `q`. -/
theorem filter_insertionSort_hp (q : ℚ) (l : List MarketRecord) :
    (List.insertionSort hpGe l).filter (fun r => decide (r.hourly_percentage = q))
      = l.filter (fun r => decide (r.hourly_percentage = q)) := by
  induction l with
  | nil => rfl
  | cons a t ih =>
      simp only [List.insertionSort]
      rw [filter_orderedInsert_hp q a (List.insertionSort hpGe t)]
      simp only [List.filter_cons, ih]

/-- C5: the ranker output is sorted in descending order of hourly
percentage, and for every value `q` the output records with hourly
percentage `q` form a subsequence of the input records with hourly
percentage `q` — equal-rate records keep their relative input order. -/
theorem C5_sorted_descending_and_stable (l : List MarketRecord) (top_n : ℕ) :
    List.Sorted hpGe (get_top_funding_opportunities l top_n) ∧
      ∀ q : ℚ, List.Sublist
        ((get_top_funding_opportunities l top_n).filter
          (fun r => decide (r.hourly_percentage = q)))
        (l.filter (fun r => decide (r.hourly_percentage = q))) := by
  unfold get_top_funding_opportunities
  by_cases h0 : l = []
  · subst h0
    exact ⟨List.sorted_nil, fun q => by simp⟩
  · simp only [if_neg h0]
    by_cases hp : l.filter (fun m => decide (0 < m.hourly_percentage)) = []
    · simp only [if_pos hp]
      exact ⟨List.sorted_nil, fun q => by simp⟩
    · simp only [if_neg hp]
      constructor
      · exact List.Pairwise.sublist (List.take_sublist _ _)
          (List.sorted_insertionSort hpGe _)
      · intro q
        have h1 := (List.take_sublist top_n
            (List.insertionSort hpGe
              (l.filter (fun m => decide (0 < m.hourly_percentage))))).filter
          (fun r => decide (r.hourly_percentage = q))
        rw [filter_insertionSort_hp q] at h1
        exact h1.trans ((List.filter_sublist l).filter _)

/-- Helper: the assembly loop splits over equal-length leading segments of
the two parallel lists. -/
theorem assembleRecords_append : ∀ (ns₁ : List String) (ss₁ : List AssetState)
    (ns₂ : List String) (ss₂ : List AssetState), ns₁.length = ss₁.length →
    assembleRecords (ns₁ ++ ns₂) (ss₁ ++ ss₂)
      = assembleRecords ns₁ ss₁ ++ assembleRecords ns₂ ss₂
  | [], [], _, _, _ => rfl
  | [], _ :: _, _, _, h => by simp at h
  | _ :: _, [], _, _, h => by simp at h
  | n :: ns, AssetState.dict f v o :: ss, ns₂, ss₂, h => by
      show mkMarketDataEntry n f v o :: assembleRecords (ns ++ ns₂) (ss ++ ss₂)
        = mkMarketDataEntry n f v o :: (assembleRecords ns ss ++ assembleRecords ns₂ ss₂)
      rw [assembleRecords_append ns ss ns₂ ss₂ (by simpa using h)]
  | _ :: ns, AssetState.notDict :: ss, ns₂, ss₂, h => by
      show assembleRecords (ns ++ ns₂) (ss ++ ss₂)
        = assembleRecords ns ss ++ assembleRecords ns₂ ss₂
      exact assembleRecords_append ns ss ns₂ ss₂ (by simpa using h)

/-- Helper: the assembly loop yields at most one record per name. -/
theorem assembleRecords_length_le : ∀ (ns : List String) (ss : List AssetState),
    (assembleRecords ns ss).length ≤ ns.length
  | [], _ => Nat.le_refl 0
  | _ :: _, [] => Nat.zero_le _
  | _ :: ns, AssetState.dict _ _ _ :: ss =>
      Nat.succ_le_succ (assembleRecords_length_le ns ss)
  | _ :: ns, AssetState.notDict :: ss =>
      Nat.le_succ_of_le (assembleRecords_length_le ns ss)

/-- C6: a dict state whose funding, volume or open-interest field is absent
or unparsable still yields the record for its market, with each affected
field left at its default `0`, and the records before and after it are
assembled unchanged — an unparsable field never aborts the batch. -/
theorem C6_unparsable_fields_defaulted (ns₁ ns₂ : List String)
    (ss₁ ss₂ : List AssetState) (n : String) (f v o : Option RawVal)
    (hlen : ns₁.length = ss₁.length) :
    assembleRecords (ns₁ ++ n :: ns₂) (ss₁ ++ AssetState.dict f v o :: ss₂)
        = assembleRecords ns₁ ss₁ ++
            mkMarketDataEntry n f v o :: assembleRecords ns₂ ss₂ ∧
      (parseFloat f = none → (mkMarketDataEntry n f v o).hourly_percentage = 0 ∧
        (mkMarketDataEntry n f v o).apr = 0) ∧
      (parseFloat v = none → (mkMarketDataEntry n f v o).volume_24h = 0) ∧
      (parseFloat o = none → (mkMarketDataEntry n f v o).open_interest = 0) := by
  refine ⟨?_, ?_, ?_, ?_⟩
  · rw [assembleRecords_append ns₁ ss₁ _ _ hlen]
    rfl
  · intro hf
    constructor <;> simp [mkMarketDataEntry, hf]
  · intro hv
    simp [mkMarketDataEntry, hv]
  · intro ho
    simp [mkMarketDataEntry, ho]

/-- Witness for C6 at a concrete input: a middle market whose funding field
is malformed, volume field absent and open-interest field malformed; the
surrounding markets are still assembled. -/
theorem C6_unparsable_fields_defaulted_witness :
    (["A"] : List String).length
        = ([AssetState.dict none none none] : List AssetState).length ∧
      assembleRecords (["A"] ++ "B" :: ["C"])
          ([AssetState.dict none none none] ++
            AssetState.dict (some RawVal.malformed) none (some RawVal.malformed) ::
              [AssetState.dict none none none])
        = assembleRecords ["A"] [AssetState.dict none none none] ++
            mkMarketDataEntry "B" (some RawVal.malformed) none (some RawVal.malformed) ::
              assembleRecords ["C"] [AssetState.dict none none none] ∧
      ((mkMarketDataEntry "B" (some RawVal.malformed) none
          (some RawVal.malformed)).hourly_percentage = 0 ∧
        (mkMarketDataEntry "B" (some RawVal.malformed) none (some RawVal.malformed)).apr = 0) ∧
      (mkMarketDataEntry "B" (some RawVal.malformed) none
          (some RawVal.malformed)).volume_24h = 0 ∧
      (mkMarketDataEntry "B" (some RawVal.malformed) none
          (some RawVal.malformed)).open_interest = 0 := by
  have h := C6_unparsable_fields_defaulted ["A"] ["C"] [AssetState.dict none none none]
    [AssetState.dict none none none] "B" (some RawVal.malformed) none
    (some RawVal.malformed) (by decide)
  exact ⟨by decide, h.1, h.2.1 (by decide), h.2.2.1 (by decide), h.2.2.2 (by decide)⟩

/-- C9: a non-dict state entry is skipped entirely — its market yields no
record, no integrity error is signalled, the surrounding markets are still
assembled, and the output is strictly shorter than the list of named
descriptors even though the lengths match. -/
theorem C9_non_dict_state_skipped (univ : List AssetDescriptor)
    (ss₁ ss₂ : List AssetState) (ns₁ ns₂ : List String) (n : String)
    (hu : extract_market_names univ = ns₁ ++ n :: ns₂)
    (h₁ : ns₁.length = ss₁.length) (h₂ : ns₂.length = ss₂.length) :
    get_all_market_details univ (ss₁ ++ AssetState.notDict :: ss₂)
        = assembleRecords ns₁ ss₁ ++ assembleRecords ns₂ ss₂ ∧
      mismatch_error_logged univ (ss₁ ++ AssetState.notDict :: ss₂) = false ∧
      (get_all_market_details univ (ss₁ ++ AssetState.notDict :: ss₂)).length
        < (extract_market_names univ).length := by
  have hlen : (extract_market_names univ).length
      = (ss₁ ++ AssetState.notDict :: ss₂).length := by
    rw [hu]
    simp [h₁, h₂]
  have hmain : get_all_market_details univ (ss₁ ++ AssetState.notDict :: ss₂)
      = assembleRecords ns₁ ss₁ ++ assembleRecords ns₂ ss₂ := by
    unfold get_all_market_details
    simp only []
    rw [if_pos hlen, hu, assembleRecords_append ns₁ ss₁ _ _ h₁]
    rfl
  refine ⟨hmain, ?_, ?_⟩
  · unfold mismatch_error_logged
    simp [hlen]
  · rw [hmain, hu]
    have g₁ := assembleRecords_length_le ns₁ ss₁
    have g₂ := assembleRecords_length_le ns₂ ss₂
    simp only [List.length_append, List.length_cons]
    omega

/-- Witness for C9 at a concrete input: two named descriptors, the first
state not a dict; only the second market produces a record. -/
theorem C9_non_dict_state_skipped_witness :
    (extract_market_names [AssetDescriptor.dict (some "BTC"), AssetDescriptor.dict (some "ETH")]
        = [] ++ "BTC" :: ["ETH"] ∧
      ([] : List String).length = ([] : List AssetState).length ∧
      (["ETH"] : List String).length
        = ([AssetState.dict none none none] : List AssetState).length) ∧
      (get_all_market_details
          [AssetDescriptor.dict (some "BTC"), AssetDescriptor.dict (some "ETH")]
          ([] ++ AssetState.notDict :: [AssetState.dict none none none])
        = assembleRecords [] [] ++ assembleRecords ["ETH"] [AssetState.dict none none none] ∧
      mismatch_error_logged
          [AssetDescriptor.dict (some "BTC"), AssetDescriptor.dict (some "ETH")]
          ([] ++ AssetState.notDict :: [AssetState.dict none none none]) = false ∧
      (get_all_market_details
          [AssetDescriptor.dict (some "BTC"), AssetDescriptor.dict (some "ETH")]
          ([] ++ AssetState.notDict :: [AssetState.dict none none none])).length
        < (extract_market_names
            [AssetDescriptor.dict (some "BTC"), AssetDescriptor.dict (some "ETH")]).length) :=
  ⟨⟨by decide, rfl, by decide⟩,
    C9_non_dict_state_skipped _ [] [AssetState.dict none none none] [] ["ETH"] "BTC"
      (by decide) rfl (by decide)⟩

/-- Helper: element `i` of `sliceStep c l` is element `c + 7 * i` of `l`. -/
theorem sliceStep_getElem? {α : Type} : ∀ (l : List α) (c i : ℕ),
    (sliceStep c l)[i]? = l[c + 7 * i]?
  | [], _, _ => by simp [sliceStep]
  | x :: xs, 0, 0 => by simp [sliceStep]
  | x :: xs, 0, i + 1 => by
      have h := sliceStep_getElem? xs 6 i
      have hidx : 0 + 7 * (i + 1) = (6 + 7 * i) + 1 := by ring
      simp only [sliceStep, List.getElem?_cons_succ, hidx]
      exact h
  | x :: xs, c + 1, i => by
      have h := sliceStep_getElem? xs c i
      have hidx : c + 1 + 7 * i = (c + 7 * i) + 1 := by ring
      simp only [sliceStep, hidx, List.getElem?_cons_succ]
      exact h

/-- Helper: `sliceStep c l` keeps `(l.length + 6 - c) / 7` elements. -/
theorem sliceStep_length {α : Type} : ∀ (l : List α) (c : ℕ),
    (sliceStep c l).length = (l.length + 6 - c) / 7
  | [], c => by simp [sliceStep]; omega
  | x :: xs, 0 => by
      have h := sliceStep_length xs 6
      simp only [sliceStep, List.length_cons, h]
      omega
  | x :: xs, c + 1 => by
      have h := sliceStep_length xs c
      simp only [sliceStep, List.length_cons, h]
      omega

/-- C7: when the raw sparkline series has strictly more than 14 points the
transformer keeps exactly every 7th point (indices 0, 7, 14, …), and
otherwise — including the empty series — it returns the series unchanged. -/
theorem C7_sparkline_downsampling {α : Type} (raw : List α) :
    (14 < raw.length →
      (sample_sparkline raw).length = (raw.length + 6) / 7 ∧
        ∀ i : ℕ, (sample_sparkline raw)[i]? = raw[7 * i]?) ∧
      (raw.length ≤ 14 → sample_sparkline raw = raw) := by
  constructor
  · intro hgt
    have hne : raw.isEmpty = false := by
      cases raw with
      | nil => simp at hgt
      | cons x xs => rfl
    unfold sample_sparkline everySeventh
    rw [if_pos ⟨hne, hgt⟩]
    refine ⟨?_, ?_⟩
    · rw [sliceStep_length raw 0]
      omega
    · intro i
      have h := sliceStep_getElem? raw 0 i
      simpa using h
  · intro hle
    unfold sample_sparkline
    rw [if_neg]
    intro hcon
    exact absurd hcon.2 (not_lt.2 hle)

/-- Witness for C7 at concrete inputs: a 15-point series is down-sampled to
points 0, 7 and 14; a 14-point series is returned unchanged. -/
theorem C7_sparkline_downsampling_witness :
    (14 < ([0, 1, 2, 3, 4, 5, 6, 7, 8, 9, 10, 11, 12, 13, 14] : List ℚ).length ∧
      (sample_sparkline ([0, 1, 2, 3, 4, 5, 6, 7, 8, 9, 10, 11, 12, 13, 14] : List ℚ)).length
        = (([0, 1, 2, 3, 4, 5, 6, 7, 8, 9, 10, 11, 12, 13, 14] : List ℚ).length + 6) / 7 ∧
      (sample_sparkline ([0, 1, 2, 3, 4, 5, 6, 7, 8, 9, 10, 11, 12, 13, 14] : List ℚ))[1]?
        = ([0, 1, 2, 3, 4, 5, 6, 7, 8, 9, 10, 11, 12, 13, 14] : List ℚ)[7 * 1]?) ∧
      (([0, 1] : List ℚ).length ≤ 14 ∧
        sample_sparkline ([0, 1] : List ℚ) = [0, 1]) :=
  ⟨⟨by decide,
    ((C7_sparkline_downsampling _).1 (by decide)).1,
    ((C7_sparkline_downsampling _).1 (by decide)).2 1⟩,
    ⟨by decide, (C7_sparkline_downsampling _).2 (by decide)⟩⟩

/-- A funding-map pair and a market record carry the same market with the
same hourly rate: the record names the same market and its hourly
percentage is the rate scaled by 100. -/
def pairMatchesRecord (p : String × ℚ) (r : MarketRecord) : Prop :=
  r.market = p.1 ∧ r.hourly_percentage = p.2 * 100

/-- Helper: matching pairs and records compare identically under the two
descending comparisons, because scaling by 100 preserves order. -/
theorem pairMatchesRecord_ge {p p' : String × ℚ} {r r' : MarketRecord}
    (h : pairMatchesRecord p r) (h' : pairMatchesRecord p' r') :
    rateGe p p' ↔ hpGe r r' := by
  unfold rateGe hpGe
  rw [h.2, h'.2]
  exact (mul_le_mul_right (by norm_num)).symm

/-- Helper: the positivity filters of the two rankers keep matching
elements together. -/
theorem forall₂_filter_positive : ∀ {fd : List (String × ℚ)} {l : List MarketRecord},
    List.Forall₂ pairMatchesRecord fd l →
    List.Forall₂ pairMatchesRecord (fd.filter (fun p => decide (0 < p.2)))
      (l.filter (fun m => decide (0 < m.hourly_percentage)))
  | [], [], List.Forall₂.nil => List.Forall₂.nil
  | p :: fd, r :: l, List.Forall₂.cons hpr htl => by
      have hpos : (0 < p.2) ↔ (0 < r.hourly_percentage) := by
        rw [hpr.2]
        constructor
        · intro hgt
          positivity
        · intro hgt
          nlinarith
      by_cases hc : 0 < p.2
      · simp only [List.filter_cons, decide_eq_true_eq, if_pos hc, if_pos (hpos.1 hc)]
        exact List.Forall₂.cons hpr (forall₂_filter_positive htl)
      · simp only [List.filter_cons, decide_eq_true_eq, if_neg hc,
          if_neg (fun hg => hc (hpos.2 hg))]
        exact forall₂_filter_positive htl

/-- Helper: ordered insertion keeps matching elements together. -/
theorem forall₂_orderedInsert {p : String × ℚ} {r : MarketRecord}
    (hpr : pairMatchesRecord p r) :
    ∀ {fd : List (String × ℚ)} {l : List MarketRecord},
    List.Forall₂ pairMatchesRecord fd l →
    List.Forall₂ pairMatchesRecord (List.orderedInsert rateGe p fd)
      (List.orderedInsert hpGe r l)
  | [], [], List.Forall₂.nil => List.Forall₂.cons hpr List.Forall₂.nil
  | q :: fd, s :: l, List.Forall₂.cons hqs htl => by
      by_cases hc : rateGe p q
      · simp only [List.orderedInsert, if_pos hc,
          if_pos ((pairMatchesRecord_ge hpr hqs).1 hc)]
        exact List.Forall₂.cons hpr (List.Forall₂.cons hqs htl)
      · simp only [List.orderedInsert, if_neg hc,
          if_neg (fun hg => hc ((pairMatchesRecord_ge hpr hqs).2 hg))]
        exact List.Forall₂.cons hqs (forall₂_orderedInsert hpr htl)

/-- Helper: the two stable sorts keep matching elements together. -/
theorem forall₂_insertionSort : ∀ {fd : List (String × ℚ)} {l : List MarketRecord},
    List.Forall₂ pairMatchesRecord fd l →
    List.Forall₂ pairMatchesRecord (List.insertionSort rateGe fd)
      (List.insertionSort hpGe l)
  | [], [], List.Forall₂.nil => List.Forall₂.nil
  | _ :: _, _ :: _, List.Forall₂.cons hpr htl =>
      forall₂_orderedInsert hpr (forall₂_insertionSort htl)

/-- Helper: matching lists have the same market names, the pair side after
expansion into result entries. -/
theorem forall₂_map_market : ∀ {fd : List (String × ℚ)} {l : List MarketRecord},
    List.Forall₂ pairMatchesRecord fd l →
    (fd.map mkBotEntry).map BotEntry.market = l.map MarketRecord.market
  | [], [], List.Forall₂.nil => rfl
  | p :: fd, r :: l, List.Forall₂.cons hpr htl => by
      simp only [List.map_cons]
      rw [forall₂_map_market htl]
      exact congrArg (fun s => s :: l.map MarketRecord.market) hpr.1.symm

/-- C8: the two ranker variants are equivalent — on a funding map and a
record list carrying the same markets with the same hourly rates in the
same order, `find_top_positive_funding_rates` and
`get_top_funding_opportunities` select the same markets in the same order
for the same `top_n`. -/
theorem C8_ranker_equivalence (funding_data : List (String × ℚ))
    (l : List MarketRecord) (top_n : ℕ)
    (h : List.Forall₂ pairMatchesRecord funding_data l) :
    (find_top_positive_funding_rates funding_data top_n).map BotEntry.market
      = (get_top_funding_opportunities l top_n).map MarketRecord.market := by
  unfold find_top_positive_funding_rates get_top_funding_opportunities
  have hf := forall₂_filter_positive h
  by_cases h0 : l = []
  · subst h0
    cases h
    simp
  · simp only [if_neg h0]
    by_cases hpos : l.filter (fun m => decide (0 < m.hourly_percentage)) = []
    · rw [hpos] at hf
      have hfd : funding_data.filter (fun p => decide (0 < p.2)) = [] :=
        List.forall₂_nil_right_iff.1 hf
      simp [hfd, hpos]
    · have hfd : ¬ funding_data.filter (fun p => decide (0 < p.2)) = [] := by
        intro hcon
        rw [hcon] at hf
        exact hpos (List.forall₂_nil_left_iff.1 hf)
      simp only [if_neg hfd, if_neg hpos]
      have hsort := forall₂_insertionSort hf
      have htake := List.forall₂_take top_n hsort
      exact forall₂_map_market htake

/-- Witness for C8 at a concrete input: one positive and one negative
market, matching pair list and record list. -/
theorem C8_ranker_equivalence_witness :
    List.Forall₂ pairMatchesRecord [("BTC", (1 : ℚ)), ("ETH", -2)]
        [{ exchange := "Hyperliquid", market := "BTC", hourly_percentage := 100, apr := 0,
           volume_24h := 0, open_interest := 0, next_funding_time := none,
           funding_interval_hours := 1 },
         { exchange := "Hyperliquid", market := "ETH", hourly_percentage := -200, apr := 0,
           volume_24h := 0, open_interest := 0, next_funding_time := none,
           funding_interval_hours := 1 }] ∧
      (find_top_positive_funding_rates [("BTC", (1 : ℚ)), ("ETH", -2)] 5).map BotEntry.market
        = (get_top_funding_opportunities
            [{ exchange := "Hyperliquid", market := "BTC", hourly_percentage := 100, apr := 0,
               volume_24h := 0, open_interest := 0, next_funding_time := none,
               funding_interval_hours := 1 },
             { exchange := "Hyperliquid", market := "ETH", hourly_percentage := -200, apr := 0,
               volume_24h := 0, open_interest := 0, next_funding_time := none,
               funding_interval_hours := 1 }] 5).map MarketRecord.market := by
  have hm : List.Forall₂ pairMatchesRecord [("BTC", (1 : ℚ)), ("ETH", -2)]
      [{ exchange := "Hyperliquid", market := "BTC", hourly_percentage := 100, apr := 0,
         volume_24h := 0, open_interest := 0, next_funding_time := none,
         funding_interval_hours := 1 },
       { exchange := "Hyperliquid", market := "ETH", hourly_percentage := -200, apr := 0,
         volume_24h := 0, open_interest := 0, next_funding_time := none,
         funding_interval_hours := 1 }] :=
    List.Forall₂.cons ⟨rfl, by norm_num⟩
      (List.Forall₂.cons ⟨rfl, by norm_num⟩ List.Forall₂.nil)
  exact ⟨hm, C8_ranker_equivalence _ _ 5 hm⟩

/-- C10: every element of the ranker output is one of the input records,
unmodified — the output is a sub-permutation of the input, so the ranker
constructs no new records and changes no field. -/
theorem C10_output_subpermutation (l : List MarketRecord) (top_n : ℕ) :
    List.Subperm (get_top_funding_opportunities l top_n) l ∧
      ∀ r ∈ get_top_funding_opportunities l top_n, r ∈ l := by
  have hsub : List.Subperm (get_top_funding_opportunities l top_n) l := by
    unfold get_top_funding_opportunities
    by_cases h0 : l = []
    · simp [h0]
    · simp only [if_neg h0]
      by_cases hp : l.filter (fun m => decide (0 < m.hourly_percentage)) = []
      · simp only [if_pos hp]
        exact List.nil_subperm
      · simp only [if_neg hp]
        have h1 := (List.take_sublist top_n
          (List.insertionSort hpGe
            (l.filter (fun m => decide (0 < m.hourly_percentage))))).subperm
        have h2 := (List.perm_insertionSort hpGe
          (l.filter (fun m => decide (0 < m.hourly_percentage)))).subperm
        have h3 := (List.filter_sublist (l := l)
          (p := fun m => decide (0 < m.hourly_percentage))).subperm
        exact (h1.trans h2).trans h3
  exact ⟨hsub, fun r hr => hsub.subset hr⟩

end FundingApp
